import Mathlib

/-!
Verification of the terrarium IRC server core against its specification.

Characters and bytes are modelled as natural numbers (their ASCII codes);
strings from the wire are lists of such numbers.  Go maps are modelled as
association lists or finite sets, and the mutable per-connection state is
passed explicitly.
-/

/- ### Burst completion via PING and PONG (part_005, pingCommand and pongCommand)

The relevant state of a LocalServer after link registration: the Bursting
flag and the GotPING and GotPONG flags.  We model the branch of each handler
in which the message is addressed to our own SID; for pingCommand the source
must additionally be the linked peer itself (sourceSID equals s.Server.SID),
which is the boolean parameter of the ping event. -/

structure BurstState where
  bursting : Bool
  gotPING : Bool
  gotPONG : Bool
deriving DecidableEq

/-- The dest-is-us branch of pingCommand: reply with PONG (not modelled), and
if we are bursting and the source is the linked peer, set GotPING and end the
burst if GotPONG already arrived. -/
def pingBurstStep (st : BurstState) (fromPeer : Bool) : BurstState :=
  if st.bursting && fromPeer then
    let st1 : BurstState := { st with gotPING := true }
    if st1.gotPONG then { st1 with bursting := false } else st1
  else st

/-- The dest-is-us branch of pongCommand: set GotPONG, and if we are bursting
and GotPING already arrived, end the burst. -/
def pongBurstStep (st : BurstState) : BurstState :=
  let st1 : BurstState := { st with gotPONG := true }
  if st1.bursting && st1.gotPING then { st1 with bursting := false } else st1

inductive BurstEv where
  | ping (fromPeer : Bool)
  | pong
deriving DecidableEq

def burstStep (st : BurstState) : BurstEv → BurstState
  | BurstEv.ping fromPeer => pingBurstStep st fromPeer
  | BurstEv.pong => pongBurstStep st

/-- State of a link right after registration: bursting, no PING or PONG seen. -/
def burstInit : BurstState := ⟨true, false, false⟩

def runBurst (evs : List BurstEv) : BurstState := evs.foldl burstStep burstInit

lemma burstStep_inv (st : BurstState) (e : BurstEv)
    (h : st.bursting = !(st.gotPING && st.gotPONG)) :
    (burstStep st e).bursting =
      !((burstStep st e).gotPING && (burstStep st e).gotPONG) := by
  obtain ⟨b, gp, gq⟩ := st
  cases e with
  | ping fromPeer =>
    cases b <;> cases gp <;> cases gq <;> cases fromPeer <;>
      simp_all [burstStep, pingBurstStep]
  | pong =>
    cases b <;> cases gp <;> cases gq <;>
      simp_all [burstStep, pongBurstStep]

lemma foldl_burst_inv (evs : List BurstEv) :
    ∀ st : BurstState, st.bursting = !(st.gotPING && st.gotPONG) →
      (evs.foldl burstStep st).bursting =
        !((evs.foldl burstStep st).gotPING && (evs.foldl burstStep st).gotPONG) := by
  induction evs with
  | nil => intro st h; simpa using h
  | cons e rest ih =>
    intro st h
    simpa using ih (burstStep st e) (burstStep_inv st e h)

/-- C4: after a server link registers, the Bursting flag is false exactly when
both a qualifying PING (from the linked peer, addressed to our SID) and a PONG
addressed to our SID have been processed; in particular a single one of the
two events leaves Bursting true. -/
theorem burst_clears_only_after_ping_and_pong :
    (∀ evs : List BurstEv,
        (runBurst evs).bursting = false ↔
          ((runBurst evs).gotPING = true ∧ (runBurst evs).gotPONG = true)) ∧
    (runBurst [BurstEv.ping true]).bursting = true ∧
    (runBurst [BurstEv.pong]).bursting = true := by
  refine ⟨?_, by decide, by decide⟩
  intro evs
  have h := foldl_burst_inv evs burstInit (by decide)
  have h2 : (runBurst evs).bursting =
      !((runBurst evs).gotPING && (runBurst evs).gotPONG) := h
  constructor
  · intro hb
    rw [hb] at h2
    constructor <;>
      [cases hginst : (runBurst evs).gotPING;
       cases hginst : (runBurst evs).gotPONG] <;> simp_all
  · rintro ⟨hp, hq⟩
    rw [hp, hq] at h2
    simpa using h2

/-- Closed instance of C4: after both the peer PING and the PONG, the flags
are set and (by the theorem) Bursting has cleared. -/
theorem burst_clears_witness :
    (runBurst [BurstEv.ping true, BurstEv.pong]).bursting = false :=
  (burst_clears_only_after_ping_and_pong.1
    [BurstEv.ping true, BurstEv.pong]).mpr (by decide)

/- ### Pre-registration flood cutoff (local_client.go, handleMessage)

handleMessage first rejects messages carrying a prefix, then increments the
pre-registration message counter and terminates the connection with reason
"Too many messages" once the counter reaches
MaxAllowedPreRegisterMessageCount. -/

def MaxAllowedPreRegisterMessageCount : Nat := 10

inductive QuitReason where
  | noPrefixPermitted
  | tooManyMessages
deriving DecidableEq

/-- The flood-relevant prelude of handleMessage: the prefixed check, the
counter increment and the cutoff test.  Returns the new counter and an
optional quit reason; command dispatch below this point never quits with
the flood reason. -/
def handleMessagePrelude (prefixed : Bool) (count : Nat) :
    Nat × Option QuitReason :=
  if prefixed then (count, some QuitReason.noPrefixPermitted)
  else
    let c := count + 1
    if MaxAllowedPreRegisterMessageCount ≤ c then
      (c, some QuitReason.tooManyMessages)
    else (c, none)

inductive ConnState where
  | alive (count : Nat)
  | quit (r : QuitReason) (count : Nat)
deriving DecidableEq

/-- Process n ordinary (prefix-free) messages on a fresh, unregistered
connection, stopping once the connection quits. -/
def runPreReg : Nat → ConnState
  | 0 => ConnState.alive 0
  | n + 1 =>
    match runPreReg n with
    | ConnState.alive c =>
      match handleMessagePrelude false c with
      | (c2, none) => ConnState.alive c2
      | (c2, some r) => ConnState.quit r c2
    | q => q

/-- C8: an unregistered connection is terminated with "Too many messages"
exactly on the message that brings its pre-registration message count to 10;
after 9 messages it is still alive. -/
theorem preRegFlood_cutoff (n : Nat) :
    (n < 10 → runPreReg n = ConnState.alive n) ∧
    (10 ≤ n → runPreReg n = ConnState.quit QuitReason.tooManyMessages 10) := by
  induction n with
  | zero => exact ⟨fun _ => rfl, fun h => absurd h (by decide)⟩
  | succ n ih =>
    constructor
    · intro h
      have hn : n < 10 := Nat.lt_of_succ_lt h
      have ha := ih.1 hn
      have hlt : ¬ MaxAllowedPreRegisterMessageCount ≤ n + 1 := by
        simp only [MaxAllowedPreRegisterMessageCount]; omega
      simp [runPreReg, ha, handleMessagePrelude, hlt]
    · intro h
      by_cases hn : 10 ≤ n
      · have hq := ih.2 hn
        simp [runPreReg, hq]
      · have hn9 : n = 9 := by omega
        subst hn9
        have ha := ih.1 (by decide)
        simp [runPreReg, ha, handleMessagePrelude,
          MaxAllowedPreRegisterMessageCount]

/-- Closed instance of C8: nine messages leave the connection alive, the
tenth terminates it for flooding. -/
theorem preRegFlood_cutoff_witness :
    runPreReg 9 = ConnState.alive 9 ∧
    runPreReg 10 = ConnState.quit QuitReason.tooManyMessages 10 :=
  ⟨(preRegFlood_cutoff 9).1 (by decide), (preRegFlood_cutoff 10).2 (by decide)⟩

/- ### Outbound queue back-pressure (local_client.go, maybeQueueMessage)

The WriteChan is a buffered channel of capacity 32768 created in
NewLocalClient; maybeQueueMessage does a non-blocking send on it and flags
SendQueueExceeded on failure.  We model the channel buffer as a list of
messages (message payloads abstracted to numbers). -/

structure ClientQ where
  queue : List Nat
  sendQueueExceeded : Bool
deriving DecidableEq

def writeChanCapacity : Nat := 32768

def maybeQueueMessage (st : ClientQ) (m : Nat) : ClientQ :=
  if st.sendQueueExceeded then st
  else if st.queue.length < writeChanCapacity then
    { st with queue := st.queue ++ [m] }
  else { st with sendQueueExceeded := true }

/-- C9: maybeQueueMessage leaves an overflowed client untouched, flags (and
does not enqueue on) a client whose 32768-slot queue is full, and never
clears the sticky SendQueueExceeded flag. -/
theorem maybeQueueMessage_sticky (st : ClientQ) (m : Nat) :
    (st.sendQueueExceeded = true → maybeQueueMessage st m = st) ∧
    (st.sendQueueExceeded = false → writeChanCapacity ≤ st.queue.length →
      (maybeQueueMessage st m).queue = st.queue ∧
      (maybeQueueMessage st m).sendQueueExceeded = true) ∧
    ((maybeQueueMessage st m).sendQueueExceeded = false →
      st.sendQueueExceeded = false) := by
  refine ⟨?_, ?_, ?_⟩
  · intro h; simp [maybeQueueMessage, h]
  · intro h hful
    have hnl : ¬ st.queue.length < writeChanCapacity := by omega
    simp [maybeQueueMessage, h, hnl]
  · intro h
    cases hv : st.sendQueueExceeded with
    | false => rfl
    | true =>
      rw [maybeQueueMessage, if_pos hv] at h
      rw [hv] at h
      exact Bool.noConfusion h

/-- Closed instance of C9: a full queue is left as is and the overflow flag
is raised. -/
theorem maybeQueueMessage_sticky_witness :
    (maybeQueueMessage ⟨List.replicate 32768 0, false⟩ 5).queue =
      List.replicate 32768 0 ∧
    (maybeQueueMessage ⟨List.replicate 32768 0, false⟩ 5).sendQueueExceeded =
      true :=
  (maybeQueueMessage_sticky ⟨List.replicate 32768 0, false⟩ 5).2.1 rfl
    (by rw [List.length_replicate]; exact Nat.le.refl)

/- ### TS6 ID minting (part_000, makeTS6ID and isValidID)

Go builds the ID in a byte array initialised to "AAAAAA" and fills base-36
digits from position 5 downward, value 0..25 as A..Z and 26..35 as 0..9,
stopping early once the remaining value is below 36.  We model the byte
array as a function from index to byte code (65 is the code of A). -/

def digitByte (m : Nat) : Nat := if 26 ≤ m then m - 26 + 48 else m + 65

def upd (f : Nat → Nat) (i v : Nat) : Nat → Nat :=
  fun j => if j = i then v else f j

/-- The digit-filling loop of makeTS6ID: at each position take n mod 36 as
the digit and continue with n div 36 while n is at least 36, otherwise write
n itself and stop. -/
def ts6Fill : Nat → Nat → (Nat → Nat) → Nat → Nat
  | n, 0, f =>
    if 36 ≤ n then upd f 0 (digitByte (n % 36)) else upd f 0 (digitByte n)
  | n, p + 1, f =>
    if 36 ≤ n then ts6Fill (n / 36) p (upd f (p + 1) (digitByte (n % 36)))
    else upd f (p + 1) (digitByte n)

def ts6Chars (f : Nat → Nat) : List Nat := [f 0, f 1, f 2, f 3, f 4, f 5]

/-- makeTS6ID: overflow above 26 * 36^5 ids is an error (modelled as none),
otherwise the 6 filled bytes. -/
def makeTS6ID (id : Nat) : Option (List Nat) :=
  if 1572120576 ≤ id then none
  else some (ts6Chars (ts6Fill id 5 (fun _ => 65)))

/-- isValidID from part_000: the regex [A-Z][A-Z0-9]\x7b5\x7d anchored on a
6-byte string. -/
def isValidID (s : List Nat) : Bool :=
  match s with
  | [c0, c1, c2, c3, c4, c5] =>
    (decide (65 ≤ c0) && decide (c0 ≤ 90)) &&
      [c1, c2, c3, c4, c5].all
        (fun c => (decide (65 ≤ c) && decide (c ≤ 90)) ||
          (decide (48 ≤ c) && decide (c ≤ 57)))
  | _ => false

/-- Value of a digit byte under the encoding of the claim: 0..9 decode to
26..35 and A..Z to 0..25. -/
def digitVal (c : Nat) : Nat :=
  if 48 ≤ c ∧ c ≤ 57 then c - 48 + 26 else c - 65

/-- Read a byte string as base-36, most significant digit first. -/
def decode6 (s : List Nat) : Nat :=
  s.foldl (fun acc c => acc * 36 + digitVal c) 0

def decodeUpTo (f : Nat → Nat) : Nat → Nat
  | 0 => digitVal (f 0)
  | k + 1 => decodeUpTo f k * 36 + digitVal (f (k + 1))

lemma digitVal_digitByte (m : Nat) (h : m < 36) : digitVal (digitByte m) = m := by
  unfold digitByte digitVal
  split_ifs with h1 h2 h3 <;> omega

lemma upd_same (f : Nat → Nat) (i v : Nat) : upd f i v i = v := by
  simp [upd]

lemma ts6Fill_untouched (pos : Nat) :
    ∀ n f j, pos < j → ts6Fill n pos f j = f j := by
  induction pos with
  | zero =>
    intro n f j hj
    have hj0 : j ≠ 0 := by omega
    unfold ts6Fill
    split_ifs <;> simp [upd, hj0]
  | succ p ih =>
    intro n f j hj
    have hjp : j ≠ p + 1 := by omega
    unfold ts6Fill
    split_ifs with h
    · rw [ih (n / 36) _ j (by omega)]
      simp [upd, hjp]
    · simp [upd, hjp]

lemma decodeUpTo_congr (k : Nat) :
    ∀ f g : Nat → Nat, (∀ i, i ≤ k → f i = g i) →
      decodeUpTo f k = decodeUpTo g k := by
  induction k with
  | zero => intro f g h; simp [decodeUpTo, h 0 (by omega)]
  | succ k ih =>
    intro f g h
    unfold decodeUpTo
    rw [ih f g (fun i hi => h i (by omega)), h (k + 1) (by omega)]

lemma decodeUpTo_allA (k : Nat) :
    ∀ f : Nat → Nat, (∀ i, i ≤ k → f i = 65) → decodeUpTo f k = 0 := by
  induction k with
  | zero =>
    intro f h
    simp [decodeUpTo, h 0 (by omega), digitVal]
  | succ k ih =>
    intro f h
    unfold decodeUpTo
    rw [ih f (fun i hi => h i (by omega)), h (k + 1) (by omega)]
    simp [digitVal]

lemma ts6Fill_decode (pos : Nat) :
    ∀ n f, n < 36 ^ (pos + 1) → (∀ i, i < pos → f i = 65) →
      decodeUpTo (ts6Fill n pos f) pos = n := by
  induction pos with
  | zero =>
    intro n f hn _
    have hn36 : n < 36 := by simpa using hn
    have h36 : ¬ 36 ≤ n := by omega
    unfold ts6Fill
    rw [if_neg h36]
    simp only [decodeUpTo, upd_same]
    exact digitVal_digitByte n hn36
  | succ p ih =>
    intro n f hn hf
    by_cases h36 : 36 ≤ n
    · have hdiv : n / 36 < 36 ^ (p + 1) := by
        rw [Nat.div_lt_iff_lt_mul (by omega)]
        calc n < 36 ^ (p + 1 + 1) := hn
        _ = 36 ^ (p + 1) * 36 := by ring
      unfold ts6Fill
      rw [if_pos h36]
      unfold decodeUpTo
      rw [ts6Fill_untouched p _ _ (p + 1) (by omega)]
      have hg : ∀ i, i < p → upd f (p + 1) (digitByte (n % 36)) i = 65 := by
        intro i hi
        simp only [upd]
        rw [if_neg (by omega)]
        exact hf i (by omega)
      rw [ih (n / 36) _ hdiv hg, upd_same,
        digitVal_digitByte (n % 36) (Nat.mod_lt _ (by omega))]
      omega
    · unfold ts6Fill
      rw [if_neg h36]
      unfold decodeUpTo
      have hA : ∀ i, i ≤ p → upd f (p + 1) (digitByte n) i = 65 := by
        intro i hi
        simp only [upd]
        rw [if_neg (by omega)]
        exact hf i (by omega)
      rw [decodeUpTo_allA p _ hA, upd_same, digitVal_digitByte n (by omega)]
      omega

lemma digitByte_range (m : Nat) (h : m < 36) :
    (65 ≤ digitByte m ∧ digitByte m ≤ 90) ∨
      (48 ≤ digitByte m ∧ digitByte m ≤ 57) := by
  unfold digitByte
  split_ifs with h1 <;> omega

lemma ts6Fill_byte_cases (pos : Nat) :
    ∀ n f j, ts6Fill n pos f j = f j ∨
      ∃ m, m < 36 ∧ ts6Fill n pos f j = digitByte m := by
  induction pos with
  | zero =>
    intro n f j
    unfold ts6Fill
    split_ifs with h
    · by_cases hj : j = 0
      · subst hj
        exact Or.inr ⟨n % 36, Nat.mod_lt _ (by omega), by simp [upd]⟩
      · exact Or.inl (by simp [upd, hj])
    · by_cases hj : j = 0
      · subst hj
        exact Or.inr ⟨n, by omega, by simp [upd]⟩
      · exact Or.inl (by simp [upd, hj])
  | succ p ih =>
    intro n f j
    unfold ts6Fill
    split_ifs with h
    · rcases ih (n / 36) (upd f (p + 1) (digitByte (n % 36))) j with h1 | ⟨m, hm, hm2⟩
      · rw [h1]
        by_cases hj : j = p + 1
        · subst hj
          exact Or.inr ⟨n % 36, Nat.mod_lt _ (by omega), by simp [upd]⟩
        · exact Or.inl (by simp [upd, hj])
      · exact Or.inr ⟨m, hm, hm2⟩
    · by_cases hj : j = p + 1
      · subst hj
        exact Or.inr ⟨n, by omega, by simp [upd]⟩
      · exact Or.inl (by simp [upd, hj])

lemma ts6Fill_first (pos : Nat) :
    ∀ n f, n < 26 * 36 ^ pos → f 0 = 65 →
      65 ≤ ts6Fill n pos f 0 ∧ ts6Fill n pos f 0 ≤ 90 := by
  induction pos with
  | zero =>
    intro n f hn hf
    have hn26 : n < 26 := by simpa using hn
    have h36 : ¬ 36 ≤ n := by omega
    unfold ts6Fill
    rw [if_neg h36, upd_same]
    unfold digitByte
    rw [if_neg (by omega)]
    omega
  | succ p ih =>
    intro n f hn hf
    by_cases h36 : 36 ≤ n
    · unfold ts6Fill
      rw [if_pos h36]
      apply ih
      · rw [Nat.div_lt_iff_lt_mul (by omega)]
        calc n < 26 * 36 ^ (p + 1) := hn
        _ = 26 * 36 ^ p * 36 := by ring
      · simp [upd, hf]
    · unfold ts6Fill
      rw [if_neg h36]
      simp [upd, hf]

lemma decode6_ts6Chars (f : Nat → Nat) : decode6 (ts6Chars f) = decodeUpTo f 5 := by
  simp [decode6, ts6Chars, decodeUpTo, List.foldl]

lemma makeTS6ID_encodes (id : Nat) (hid : id < 1572120576) :
    makeTS6ID id = some (ts6Chars (ts6Fill id 5 (fun _ => 65))) ∧
    isValidID (ts6Chars (ts6Fill id 5 (fun _ => 65))) = true ∧
    decode6 (ts6Chars (ts6Fill id 5 (fun _ => 65))) = id := by
  have hb28 : (26 : Nat) * 36 ^ 5 = 1572120576 := by norm_num
  have hbound : id < 26 * 36 ^ 5 := by rw [hb28]; exact hid
  have hpow : id < 36 ^ (5 + 1) := by
    have : (26 : Nat) * 36 ^ 5 ≤ 36 ^ 6 := by norm_num
    omega
  refine ⟨?_, ?_, ?_⟩
  · have hno : ¬ 1572120576 ≤ id := by omega
    simp [makeTS6ID, hno]
  · have h0 := ts6Fill_first 5 id (fun _ => 65) hbound rfl
    have hj : ∀ j, (65 ≤ ts6Fill id 5 (fun _ => 65) j ∧
        ts6Fill id 5 (fun _ => 65) j ≤ 90) ∨
        (48 ≤ ts6Fill id 5 (fun _ => 65) j ∧
          ts6Fill id 5 (fun _ => 65) j ≤ 57) := by
      intro j
      rcases ts6Fill_byte_cases 5 id (fun _ => 65) j with h | ⟨m, hm, he⟩
      · left; rw [h]; omega
      · rw [he]; exact digitByte_range m hm
    have h1 := hj 1
    have h2 := hj 2
    have h3 := hj 3
    have h4 := hj 4
    have h5 := hj 5
    simp only [ts6Chars, isValidID, List.all_cons, List.all_nil,
      Bool.and_eq_true, Bool.or_eq_true, decide_eq_true_eq, and_true]
    omega
  · rw [decode6_ts6Chars]
    exact ts6Fill_decode 5 id (fun _ => 65) hpow (fun i _ => rfl)

/-- C2: for ids below 26 * 36^5 = 1572120576, makeTS6ID succeeds and returns
a 6-byte ID in the language of isValidID whose base-36 reading (A..Z as
0..25, 0..9 as 26..35, most significant digit first) is the id again, making
the encoding injective; at or above the bound it reports overflow. -/
theorem makeTS6ID_spec :
    (∀ id : Nat, id < 1572120576 →
      ∃ s, makeTS6ID id = some s ∧ isValidID s = true ∧ decode6 s = id) ∧
    (∀ a b : Nat, a < 1572120576 → b < 1572120576 →
      makeTS6ID a = makeTS6ID b → a = b) ∧
    (∀ id : Nat, 1572120576 ≤ id → makeTS6ID id = none) := by
  refine ⟨?_, ?_, ?_⟩
  · intro id hid
    obtain ⟨hsome, hvalid, hdec⟩ := makeTS6ID_encodes id hid
    exact ⟨_, hsome, hvalid, hdec⟩
  · intro a b ha hb heq
    obtain ⟨hsa, _, hda⟩ := makeTS6ID_encodes a ha
    obtain ⟨hsb, _, hdb⟩ := makeTS6ID_encodes b hb
    rw [hsa, hsb] at heq
    have hchars := Option.some.inj heq
    rw [← hda, ← hdb, hchars]
  · intro id h
    simp [makeTS6ID, h]

/-- Closed instance of C2: id 1000 encodes to a valid ID that decodes back,
and the first overflowing id is rejected. -/
theorem makeTS6ID_spec_witness :
    (∃ s, makeTS6ID 1000 = some s ∧ isValidID s = true ∧ decode6 s = 1000) ∧
    makeTS6ID 1572120576 = none :=
  ⟨makeTS6ID_spec.1 1000 (by decide), makeTS6ID_spec.2.2 1572120576 (by decide)⟩

/- ### Nick validation (part_000, isValidNick)

The Go loop walks the characters with their index; position 0 additionally
rejects the dash and digits before the shared character-class checks. -/

def isValidNickLoop : Nat → List Nat → Bool
  | _, [] => true
  | i, c :: rest =>
    if i = 0 ∧ c = 45 then false
    else if i = 0 ∧ 48 ≤ c ∧ c ≤ 57 then false
    else if c = 45 then isValidNickLoop (i + 1) rest
    else if 48 ≤ c ∧ c ≤ 57 then isValidNickLoop (i + 1) rest
    else if 65 ≤ c ∧ c ≤ 90 then isValidNickLoop (i + 1) rest
    else if c = 91 ∨ c = 92 ∨ c = 93 ∨ c = 94 ∨ c = 95 ∨ c = 96 then
      isValidNickLoop (i + 1) rest
    else if 97 ≤ c ∧ c ≤ 122 then isValidNickLoop (i + 1) rest
    else if c = 123 ∨ c = 124 ∨ c = 125 then isValidNickLoop (i + 1) rest
    else false

def isValidNick (maxLen : Nat) (n : List Nat) : Bool :=
  if n.length = 0 ∨ maxLen < n.length then false
  else isValidNickLoop 0 n

/-- Character class actually accepted after the first position: dash, digits,
letters, and the specials bracket, backslash, caret, underscore, backquote,
brace and pipe. -/
def nickRestOk (c : Nat) : Bool :=
  decide (c = 45 ∨ (48 ≤ c ∧ c ≤ 57) ∨ (65 ≤ c ∧ c ≤ 90) ∨
    c = 91 ∨ c = 92 ∨ c = 93 ∨ c = 94 ∨ c = 95 ∨ c = 96 ∨
    (97 ≤ c ∧ c ≤ 122) ∨ c = 123 ∨ c = 124 ∨ c = 125)

/-- Character class actually accepted in the first position: letters and the
specials (no digits, no dash). -/
def nickFirstOk (c : Nat) : Bool :=
  decide ((65 ≤ c ∧ c ≤ 90) ∨
    c = 91 ∨ c = 92 ∨ c = 93 ∨ c = 94 ∨ c = 95 ∨ c = 96 ∨
    (97 ≤ c ∧ c ≤ 122) ∨ c = 123 ∨ c = 124 ∨ c = 125)

lemma isValidNickLoop_succ (rest : List Nat) :
    ∀ i, isValidNickLoop (i + 1) rest = rest.all nickRestOk := by
  induction rest with
  | nil => intro i; rfl
  | cons c rest ih =>
    intro i
    rw [isValidNickLoop]
    have hne : ¬ (i + 1 = 0 ∧ c = 45) := by omega
    have hne2 : ¬ (i + 1 = 0 ∧ 48 ≤ c ∧ c ≤ 57) := by omega
    rw [if_neg hne, if_neg hne2, List.all_cons]
    split_ifs <;>
      first
        | (have hc : nickRestOk c = true := by
             simp only [nickRestOk, decide_eq_true_eq]; omega
           rw [hc, Bool.true_and, ih (i + 1)])
        | (have hc : nickRestOk c = false := by
             simp only [nickRestOk, decide_eq_false_iff_not]; omega
           rw [hc, Bool.false_and])

lemma isValidNickLoop_head (c : Nat) (rest : List Nat) :
    isValidNickLoop 0 (c :: rest) = (nickFirstOk c && rest.all nickRestOk) := by
  rw [isValidNickLoop]
  split_ifs <;>
    first
      | (have hc : nickFirstOk c = true := by
           simp only [nickFirstOk, decide_eq_true_eq]; omega
         rw [hc, Bool.true_and, isValidNickLoop_succ rest 0])
      | (have hc : nickFirstOk c = false := by
           simp only [nickFirstOk, decide_eq_false_iff_not]; omega
         rw [hc, Bool.false_and])

/-- What isValidNick actually accepts: nonempty, within maxLen, first
character from the letters or specials class, remaining characters from the
dash, digits, letters or specials class. -/
def isValidNickSpec (maxLen : Nat) (n : List Nat) : Bool :=
  match n with
  | [] => false
  | c :: rest =>
    decide (rest.length + 1 ≤ maxLen) && nickFirstOk c && rest.all nickRestOk

/-- The nick predicate exactly as the specification words it: length within
bounds, first character neither a digit nor a dash, and every remaining
character a digit, a letter, or one of the nine listed specials (the dash is
absent, and no class is imposed on the first character). -/
def specNickClaim (maxLen : Nat) (n : List Nat) : Bool :=
  match n with
  | [] => false
  | c :: rest =>
    decide (rest.length + 1 ≤ maxLen) &&
    decide (¬ (48 ≤ c ∧ c ≤ 57) ∧ c ≠ 45) &&
    rest.all (fun d => decide ((48 ≤ d ∧ d ≤ 57) ∨ (65 ≤ d ∧ d ≤ 90) ∨
      (97 ≤ d ∧ d ≤ 122) ∨ d = 91 ∨ d = 92 ∨ d = 93 ∨ d = 94 ∨ d = 95 ∨
      d = 96 ∨ d = 123 ∨ d = 124 ∨ d = 125))

/-- C7 counterexample: the nick consisting of a letter followed by a dash is
accepted by isValidNick although the claimed character classes reject a dash
after the first position. -/
theorem isValidNick_claim_counterexample :
    isValidNick 9 [97, 45] = true ∧ specNickClaim 9 [97, 45] = false := by
  decide

/-- C7 as amended: isValidNick maxLen n holds exactly when n is nonempty, at
most maxLen long, its first character is a letter or one of the specials
bracket, backslash, caret, underscore, backquote, brace, pipe, and every
remaining character is a dash, digit, letter or one of those specials. -/
theorem isValidNick_characterisation (maxLen : Nat) (n : List Nat) :
    isValidNick maxLen n = isValidNickSpec maxLen n := by
  cases n with
  | nil => rfl
  | cons c rest =>
    rw [isValidNick, isValidNickSpec]
    by_cases hlen : maxLen < (c :: rest).length
    · rw [if_pos (Or.inr hlen)]
      have hd : decide (rest.length + 1 ≤ maxLen) = false := by
        simp only [decide_eq_false_iff_not]
        simp only [List.length_cons] at hlen
        omega
      rw [hd, Bool.false_and, Bool.false_and]
    · have hcond : ¬ ((c :: rest).length = 0 ∨ maxLen < (c :: rest).length) := by
        simp only [List.length_cons]
        simp only [List.length_cons] at hlen
        omega
      rw [if_neg hcond]
      have hd : decide (rest.length + 1 ≤ maxLen) = true := by
        simp only [decide_eq_true_eq]
        simp only [List.length_cons] at hlen
        omega
      rw [hd, Bool.true_and, isValidNickLoop_head]

/-- Closed instance of C7 on the nick k-k. -/
theorem isValidNick_characterisation_witness :
    isValidNick 9 [107, 45, 107] = isValidNickSpec 9 [107, 45, 107] :=
  isValidNick_characterisation 9 [107, 45, 107]

/- ### Topic burst (part_005, tbCommand)

State of the channel fields touched by tbCommand.  The handler is modelled
from the point where parameters are parsed: the channel is known, topicTS is
an integer, setter and topic are byte strings.  maxTopicLength is 300. -/

structure TopicState where
  topic : List Nat
  topicSetter : List Nat
  topicTS : Int
deriving DecidableEq

def maxTopicLength : Nat := 300

/-- tbCommand on a known channel: truncate the incoming topic, do nothing if
it equals the stored topic, otherwise accept it only when we have no topic
or the incoming topic TS is older, updating topic, setter and topic TS. -/
def tbCommand (ch : TopicState) (topicTS : Int) (setter topicIn : List Nat) :
    TopicState :=
  let topic := topicIn.take maxTopicLength
  if topic = ch.topic then ch
  else if ch.topic.length = 0 ∨ topicTS < ch.topicTS then
    { topic := topic, topicSetter := setter, topicTS := topicTS }
  else ch

/-- C5 counterexample: a channel with topic p and topic TS 40 receives a TB
with the same topic p and the older TS 30; the claimed condition (incoming
TS below stored TS) holds, yet nothing is updated, so the claimed equivalence
fails. -/
theorem tbCommand_claim_counterexample :
    tbCommand ⟨[112], [], 40⟩ 30 [115] [112] = ⟨[112], [], 40⟩ ∧
    ((⟨[112], [], 40⟩ : TopicState).topic = [] ∨
      (30 : Int) < (⟨[112], [], 40⟩ : TopicState).topicTS) ∧
    (tbCommand ⟨[112], [], 40⟩ 30 [115] [112]).topicTS ≠ 30 := by
  refine ⟨rfl, Or.inr (by decide), by decide⟩

/-- C5 as amended: tbCommand updates topic, setter and topic TS exactly when
the truncated incoming topic differs from the stored one and either the
stored topic is empty or the incoming topic TS is strictly older; in every
other case the channel is unchanged. -/
theorem tbCommand_update_iff (ch : TopicState) (topicTS : Int)
    (setter topicIn : List Nat) :
    (topicIn.take maxTopicLength ≠ ch.topic ∧
        (ch.topic = [] ∨ topicTS < ch.topicTS) →
      tbCommand ch topicTS setter topicIn =
        ⟨topicIn.take maxTopicLength, setter, topicTS⟩) ∧
    (¬ (topicIn.take maxTopicLength ≠ ch.topic ∧
        (ch.topic = [] ∨ topicTS < ch.topicTS)) →
      tbCommand ch topicTS setter topicIn = ch) := by
  constructor
  · rintro ⟨hne, hacc⟩
    rw [tbCommand]
    rw [if_neg hne]
    have hacc2 : ch.topic.length = 0 ∨ topicTS < ch.topicTS := by
      rcases hacc with h | h
      · exact Or.inl (by simp [h])
      · exact Or.inr h
    rw [if_pos hacc2]
  · intro hno
    rw [tbCommand]
    by_cases heq : topicIn.take maxTopicLength = ch.topic
    · rw [if_pos heq]
    · rw [if_neg heq]
      have hrej : ¬ (ch.topic.length = 0 ∨ topicTS < ch.topicTS) := by
        intro hc
        apply hno
        refine ⟨heq, ?_⟩
        rcases hc with h | h
        · exact Or.inl (List.length_eq_zero.mp h)
        · exact Or.inr h
      rw [if_neg hrej]

/-- Closed instance of the amended C5: a genuinely different, older topic is
accepted. -/
theorem tbCommand_update_iff_witness :
    tbCommand ⟨[112], [], 40⟩ 30 [115] [104] = ⟨[104], [115], 30⟩ :=
  (tbCommand_update_iff ⟨[112], [], 40⟩ 30 [115] [104]).1
    ⟨by decide, Or.inr (by decide)⟩

/- ### User mode changes (part_000 parseAndResolveUmodeChanges, part_005 modeCommand)

Mode letters are bytes: i is 105, o is 111, C is 67, plus is 43, minus is 45.
Go maps keyed by mode byte are modelled as finite sets of bytes. -/

/-- The parsing loop shared by the user mode handlers: walk the mode string
keeping the current action (plus by default), collecting the modes requested
set and the modes requested unset. -/
def parseUmodeLoop (action : Nat) : List Nat → Finset Nat × Finset Nat
  | [] => (∅, ∅)
  | c :: rest =>
    if c = 43 ∨ c = 45 then parseUmodeLoop c rest
    else
      let p := parseUmodeLoop action rest
      if action = 43 then (insert c p.1, p.2)
      else if action = 45 then (p.1, insert c p.2)
      else p

/-- Resolution stage of parseAndResolveUmodeChanges, after unsupported modes
have been filtered out: the unset-o cascade on C, the ambiguity removal, then
the unset and set application passes.  Returns (modes set, modes unset, new
current modes). -/
def umodeResolve (rs1 ru1 cur : Finset Nat) :
    Finset Nat × Finset Nat × Finset Nat :=
  let rs2 := if 111 ∈ ru1 then rs1.erase 67 else rs1
  let ru2 := if 111 ∈ ru1 then insert 67 ru1 else ru1
  let inter := rs2 ∩ ru2
  let rs3 := rs2 \ inter
  let ru3 := ru2 \ inter
  let unsetApplied := ru3 ∩ cur
  let cur1 := cur \ unsetApplied
  let setApplied :=
    rs3.filter (fun m => m ∉ cur1 ∧ (m = 105 ∨ (m = 67 ∧ 111 ∈ cur1)))
  (setApplied, unsetApplied, cur1 ∪ setApplied)

/-- parseAndResolveUmodeChanges from part_000: parse the request, split off
unknown modes, then resolve against the current modes.  Returns (set, unset,
unknown, resulting current modes). -/
def parseAndResolveUmodeChanges (modes : List Nat) (cur : Finset Nat) :
    Finset Nat × Finset Nat × Finset Nat × Finset Nat :=
  let req := parseUmodeLoop 43 modes
  let unknown := req.1.filter (fun m => ¬ (m = 105 ∨ m = 111 ∨ m = 67)) ∪
    req.2.filter (fun m => ¬ (m = 105 ∨ m = 111 ∨ m = 67))
  let r := umodeResolve (req.1.filter (fun m => m = 105 ∨ m = 111 ∨ m = 67))
    (req.2.filter (fun m => m = 105 ∨ m = 111 ∨ m = 67)) cur
  (r.1, r.2.1, unknown, r.2.2)

lemma umodeResolve_spec (rs1 ru1 cur : Finset Nat) :
    111 ∉ (umodeResolve rs1 ru1 cur).1 ∧
    (111 ∈ (umodeResolve rs1 ru1 cur).2.2 → 111 ∈ cur) ∧
    (111 ∈ (umodeResolve rs1 ru1 cur).2.1 →
      67 ∉ (umodeResolve rs1 ru1 cur).2.2) := by
  simp only [umodeResolve]
  refine ⟨?_, ?_, ?_⟩
  · simp [Finset.mem_filter]
  · intro hm
    rcases Finset.mem_union.mp hm with h | h
    · exact (Finset.mem_sdiff.mp h).1
    · exact absurd h (by simp [Finset.mem_filter])
  · intro hm hc
    have h111 : 111 ∈ ru1 := by
      by_cases hru : 111 ∈ ru1
      · exact hru
      · exfalso
        have h1 := (Finset.mem_inter.mp hm).1
        rw [if_neg hru] at h1
        exact hru (Finset.mem_sdiff.mp h1).1
    simp only [if_pos h111] at hm hc
    have h67rs2 : (67 : Nat) ∉ rs1.erase 67 := Finset.not_mem_erase 67 rs1
    rcases Finset.mem_union.mp hc with h | h
    · -- 67 survived in the current modes: but then it was in the unset pass
      have h67cur : (67 : Nat) ∈ cur := (Finset.mem_sdiff.mp h).1
      have h67ru3 : (67 : Nat) ∈ insert 67 ru1 \ (rs1.erase 67 ∩ insert 67 ru1) := by
        rw [Finset.mem_sdiff]
        refine ⟨Finset.mem_insert_self 67 ru1, ?_⟩
        intro hin
        exact h67rs2 (Finset.mem_inter.mp hin).1
      have : (67 : Nat) ∈ insert 67 ru1 \ (rs1.erase 67 ∩ insert 67 ru1) ∩ cur :=
        Finset.mem_inter.mpr ⟨h67ru3, h67cur⟩
      exact (Finset.mem_sdiff.mp h).2 this
    · -- 67 was freshly set: impossible, the cascade erased it from the set request
      have h3 := (Finset.mem_filter.mp h).1
      exact h67rs2 (Finset.mem_sdiff.mp h3).1

/-- C6 as amended, local-user side: in the mode resolution used for a local
user changing their own modes (parseAndResolveUmodeChanges), a requested
plus-o is never applied (o appears in the result only if already held), and
whenever minus-o is applied, C is absent from the resulting mode set. -/
theorem parseUmode_noSelfOp_cascade (modes : List Nat) (cur : Finset Nat) :
    111 ∉ (parseAndResolveUmodeChanges modes cur).1 ∧
    (111 ∈ (parseAndResolveUmodeChanges modes cur).2.2.2 → 111 ∈ cur) ∧
    (111 ∈ (parseAndResolveUmodeChanges modes cur).2.1 →
      67 ∉ (parseAndResolveUmodeChanges modes cur).2.2.2) := by
  have h := umodeResolve_spec
    ((parseUmodeLoop 43 modes).1.filter (fun m => m = 105 ∨ m = 111 ∨ m = 67))
    ((parseUmodeLoop 43 modes).2.filter (fun m => m = 105 ∨ m = 111 ∨ m = 67))
    cur
  simpa only [parseAndResolveUmodeChanges] using h

/-- Closed instance of the amended C6: minus-o on a user holding o and C
removes o and leaves no C behind. -/
theorem parseUmode_noSelfOp_cascade_witness :
    111 ∈ (parseAndResolveUmodeChanges [45, 111] {111, 67}).2.1 ∧
    67 ∉ (parseAndResolveUmodeChanges [45, 111] {111, 67}).2.2.2 :=
  ⟨by decide, (parseUmode_noSelfOp_cascade [45, 111] {111, 67}).2.2 (by decide)⟩

/-- The mode application loop of the server-to-server user MODE handler
(part_005 modeCommand), acting on the modes of the source user (who is also
the target); the Boolean tracks the membership of that user in the global
operator table. -/
def modeCmdLoop (motion : Nat) (umodes : Finset Nat) (isOper : Bool) :
    List Nat → Finset Nat × Bool
  | [] => (umodes, isOper)
  | c :: rest =>
    if c = 43 ∨ c = 45 then modeCmdLoop c umodes isOper rest
    else if c = 105 ∨ c = 111 ∨ c = 67 then
      if motion = 43 then
        modeCmdLoop motion (insert c umodes)
          (if c = 111 then true else isOper) rest
      else
        if c ∈ umodes then
          modeCmdLoop motion (umodes.erase c)
            (if c = 111 then false else isOper) rest
        else modeCmdLoop motion umodes isOper rest
    else modeCmdLoop motion umodes isOper rest

/-- C6 counterexample: in the server-to-server user MODE handler the request
plus-o on the source user is applied (the user gains o and enters the
operator table), and minus-o does not remove C. -/
theorem modeCommand_claim_counterexample :
    (modeCmdLoop 43 ∅ false [43, 111]).1 = ({111} : Finset Nat) ∧
    (modeCmdLoop 43 ∅ false [43, 111]).2 = true ∧
    67 ∈ (modeCmdLoop 43 ({111, 67} : Finset Nat) true [45, 111]).1 := by
  decide

/- ### SJOIN (part_005, sjoinCommand)

The handler is modelled from the point where its parameters are parsed: the
channel TS is an integer, the channel name is canonical and valid, the mode
parameter is a list of mode bytes, and the user list is a list of entries
(at-prefixed?, UID), mirroring the at-check on the first byte and the
TrimLeft of the at and plus prefixes.  The channels map is an association
list (only the target channel key is touched); the Users table contributes
the set of known UIDs.  Local JOIN/MODE echoes and the per-user Channels
back-map are not tracked.  The Channel methods clearModes and grantOps are
not part of the sources; clearModes is modelled from the spec (if incoming
TS < local TS, clear local modes and ops) as emptying both the mode set and
the op set, and grantOps as inserting the user into the op set. -/

structure Channel where
  members : Finset String
  ops : Finset String
  modes : Finset Nat
  ts : Int
deriving DecidableEq

structure Catbox where
  channels : List (String × Channel)
  users : Finset String
deriving DecidableEq

def mapGet : List (String × Channel) → String → Option Channel
  | [], _ => none
  | (k0, v0) :: rest, k => if k0 = k then some v0 else mapGet rest k

def mapSet : List (String × Channel) → String → Channel → List (String × Channel)
  | [], k, v => [(k, v)]
  | (k0, v0) :: rest, k, v =>
    if k0 = k then (k, v) :: rest else (k0, v0) :: mapSet rest k v

def mapDel : List (String × Channel) → String → List (String × Channel)
  | [], _ => []
  | (k0, v0) :: rest, k =>
    if k0 = k then mapDel rest k else (k0, v0) :: mapDel rest k

/-- The member loop of sjoinCommand: for each entry, ops eligibility needs
acceptModes and the at prefix; an entry whose UID is unknown aborts the loop
(second component false). -/
def sjoinUsers (users : Finset String) (acceptModes : Bool) :
    Channel → List (Bool × String) → Channel × Bool
  | ch, [] => (ch, true)
  | ch, (hasAt, uid) :: rest =>
    if uid ∈ users then
      sjoinUsers users acceptModes
        { ch with members := insert uid ch.members,
                  ops := if acceptModes && hasAt then insert uid ch.ops
                         else ch.ops }
        rest
    else (ch, false)

/-- sjoinCommand after parameter parsing.  Returns the new state and whether
the message was propagated to the other local servers. -/
def sjoinCommand (cb : Catbox) (channelTS : Int) (chanName : String)
    (modeChars : List Nat) (userList : List (Bool × String)) : Catbox × Bool :=
  let found := mapGet cb.channels chanName
  let ch0 : Channel :=
    match found with
    | some ch => ch
    | none => { members := ∅, ops := ∅, modes := ∅, ts := channelTS }
  let acceptModes : Bool := ! decide (ch0.ts < channelTS)
  let clearModes : Bool := decide (channelTS < ch0.ts)
  let ch1 : Channel :=
    if clearModes then { ch0 with ts := channelTS, modes := ∅, ops := ∅ }
    else ch0
  let ch2 : Channel :=
    if acceptModes then
      { ch1 with modes := ch1.modes ∪
          (modeChars.filter (fun c => c = 110 ∨ c = 115)).toFinset }
    else ch1
  let r := sjoinUsers cb.users acceptModes ch2 userList
  if r.2 then
    ({ cb with channels := mapSet cb.channels chanName r.1 }, true)
  else if found.isSome then
    ({ cb with channels := mapSet cb.channels chanName r.1 }, false)
  else ({ cb with channels := mapDel cb.channels chanName }, false)

def uidsOf (l : List (Bool × String)) : Finset String :=
  (l.map Prod.snd).toFinset

def oppedUidsOf (l : List (Bool × String)) : Finset String :=
  ((l.filter Prod.fst).map Prod.snd).toFinset

def nsModesOf (modeChars : List Nat) : Finset Nat :=
  (modeChars.filter (fun c => c = 110 ∨ c = 115)).toFinset

lemma mapGet_mapSet (l : List (String × Channel)) (k : String) (v : Channel) :
    mapGet (mapSet l k v) k = some v := by
  induction l with
  | nil => simp [mapSet, mapGet]
  | cons p rest ih =>
    obtain ⟨k0, v0⟩ := p
    by_cases h : k0 = k
    · simp [mapSet, h, mapGet]
    · simp [mapSet, h, mapGet, ih]

lemma mapGet_mapDel (l : List (String × Channel)) (k : String) :
    mapGet (mapDel l k) k = none := by
  induction l with
  | nil => rfl
  | cons p rest ih =>
    obtain ⟨k0, v0⟩ := p
    by_cases h : k0 = k
    · simp [mapDel, h, ih]
    · simp [mapDel, h, mapGet, ih]

lemma sjoinUsers_all_known (users : Finset String) (am : Bool) :
    ∀ (l : List (Bool × String)) (ch : Channel),
      (∀ p ∈ l, p.2 ∈ users) →
      (sjoinUsers users am ch l).2 = true ∧
      (sjoinUsers users am ch l).1.members = ch.members ∪ uidsOf l ∧
      (sjoinUsers users am ch l).1.ops =
        (if am then ch.ops ∪ oppedUidsOf l else ch.ops) ∧
      (sjoinUsers users am ch l).1.modes = ch.modes ∧
      (sjoinUsers users am ch l).1.ts = ch.ts := by
  intro l
  induction l with
  | nil =>
    intro ch _
    refine ⟨rfl, ?_, ?_, rfl, rfl⟩
    · simp [sjoinUsers, uidsOf]
    · cases am <;> simp [sjoinUsers, oppedUidsOf]
  | cons p rest ih =>
    intro ch hall
    obtain ⟨hasAt, uid⟩ := p
    have hu : uid ∈ users := hall (hasAt, uid) (List.mem_cons_self _ _)
    have hrest : ∀ q ∈ rest, q.2 ∈ users :=
      fun q hq => hall q (List.mem_cons_of_mem _ hq)
    obtain ⟨h2, hm, ho, hmo, hts⟩ := ih
      { ch with members := insert uid ch.members,
                ops := if am && hasAt then insert uid ch.ops else ch.ops }
      hrest
    rw [sjoinUsers, if_pos hu]
    refine ⟨h2, ?_, ?_, hmo, hts⟩
    · rw [hm]
      show insert uid ch.members ∪ uidsOf rest = _
      simp only [uidsOf, List.map_cons, List.toFinset_cons]
      rw [Finset.insert_union, Finset.union_insert]
    · rw [ho]
      show (if am then
          (if am && hasAt then insert uid ch.ops else ch.ops) ∪ oppedUidsOf rest
        else (if am && hasAt then insert uid ch.ops else ch.ops)) = _
      cases am with
      | false => simp
      | true =>
        cases hasAt with
        | false =>
          simp [oppedUidsOf, List.filter_cons]
        | true =>
          show insert uid ch.ops ∪ oppedUidsOf rest =
            ch.ops ∪ oppedUidsOf ((true, uid) :: rest)
          have hcons : oppedUidsOf ((true, uid) :: rest) =
              insert uid (oppedUidsOf rest) := by
            simp [oppedUidsOf, List.filter_cons]
          rw [hcons, Finset.insert_union, Finset.union_insert]

/-- C1: SJOIN on an existing channel, with every listed UID known.  The
message is propagated, all listed UIDs become members, and the TS arbitration
is as specified: a newer incoming TS leaves TS, modes and ops untouched and
ignores at-prefixes; an older incoming TS is adopted, modes and ops are
cleared, then the incoming supported modes (n, s) are applied and at-prefixed
UIDs become ops; an equal TS applies incoming modes and at-prefixes
additively. -/
theorem sjoin_ts_arbitration (cb : Catbox) (channelTS : Int) (chanName : String)
    (modeChars : List Nat) (userList : List (Bool × String)) (ch : Channel)
    (hch : mapGet cb.channels chanName = some ch)
    (hall : ∀ p ∈ userList, p.2 ∈ cb.users) :
    (sjoinCommand cb channelTS chanName modeChars userList).2 = true ∧
    ∃ ch2, mapGet
        (sjoinCommand cb channelTS chanName modeChars userList).1.channels
        chanName = some ch2 ∧
      ch2.members = ch.members ∪ uidsOf userList ∧
      (ch.ts < channelTS →
        ch2.ts = ch.ts ∧ ch2.modes = ch.modes ∧ ch2.ops = ch.ops) ∧
      (channelTS < ch.ts →
        ch2.ts = channelTS ∧ ch2.modes = nsModesOf modeChars ∧
        ch2.ops = oppedUidsOf userList) ∧
      (channelTS = ch.ts →
        ch2.ts = ch.ts ∧ ch2.modes = ch.modes ∪ nsModesOf modeChars ∧
        ch2.ops = ch.ops ∪ oppedUidsOf userList) := by
  rcases lt_trichotomy ch.ts channelTS with hlt | heq | hgt
  · -- incoming TS greater: modes ignored, prefixes ignored
    have hd1 : decide (ch.ts < channelTS) = true := decide_eq_true hlt
    have hd2 : decide (channelTS < ch.ts) = false :=
      decide_eq_false (by omega)
    obtain ⟨h2, hm, ho, hmo, hts⟩ :=
      sjoinUsers_all_known cb.users false userList ch hall
    simp only [sjoinCommand, hch, hd1, hd2, Bool.not_true, Bool.false_eq_true,
      if_false, ite_false] at *
    simp only [h2, if_true, ite_true]
    refine ⟨trivial, ⟨_, mapGet_mapSet _ _ _, hm, ?_, ?_, ?_⟩⟩
    · intro _
      refine ⟨hts, hmo, ?_⟩
      simpa using ho
    · intro h; exact absurd hlt (by omega)
    · intro h; exact absurd hlt (by omega)
  · -- equal TS: additive
    have hd1 : decide (ch.ts < channelTS) = false := decide_eq_false (by omega)
    have hd2 : decide (channelTS < ch.ts) = false := decide_eq_false (by omega)
    obtain ⟨h2, hm, ho, hmo, hts⟩ := sjoinUsers_all_known cb.users true userList
      { ch with modes := ch.modes ∪ nsModesOf modeChars } hall
    simp only [sjoinCommand, hch, hd1, hd2, Bool.not_false, Bool.false_eq_true,
      if_false, ite_false, if_true, ite_true, nsModesOf] at *
    simp only [h2, if_true, ite_true]
    refine ⟨trivial, ⟨_, mapGet_mapSet _ _ _, hm, ?_, ?_, ?_⟩⟩
    · intro h; exact absurd h (by omega)
    · intro h; exact absurd h (by omega)
    · intro _
      refine ⟨hts, hmo, ?_⟩
      simpa using ho
  · -- incoming TS smaller: clear modes and ops, adopt TS, apply incoming
    have hd1 : decide (ch.ts < channelTS) = false := decide_eq_false (by omega)
    have hd2 : decide (channelTS < ch.ts) = true := decide_eq_true hgt
    obtain ⟨h2, hm, ho, hmo, hts⟩ := sjoinUsers_all_known cb.users true userList
      { ch with ts := channelTS, modes := ∅ ∪ nsModesOf modeChars, ops := ∅ }
      hall
    simp only [sjoinCommand, hch, hd1, hd2, Bool.not_false, Bool.false_eq_true,
      if_false, ite_false, if_true, ite_true, nsModesOf] at *
    simp only [h2, if_true, ite_true]
    refine ⟨trivial, ⟨_, mapGet_mapSet _ _ _, hm, ?_, ?_, ?_⟩⟩
    · intro h; exact absurd h (by omega)
    · intro _
      refine ⟨hts, by simpa using hmo, ?_⟩
      simpa using ho
    · intro h; exact absurd h (by omega)

def chEx : Channel := ⟨{"001AAAAAA"}, ∅, {110, 115}, 200⟩

def cbEx : Catbox := ⟨[("#test", chEx)], {"001AAAAAA", "002AAAAAC"}⟩

/-- Closed instance of C1, the scenario of the specification: channel at
TS 200 with modes n and s receives SJOIN at TS 150 with mode n and an
at-prefixed member. -/
theorem sjoin_ts_arbitration_witness :
    (sjoinCommand cbEx 150 "#test" [110] [(true, "002AAAAAC")]).2 = true ∧
    ∃ ch2, mapGet
        (sjoinCommand cbEx 150 "#test" [110] [(true, "002AAAAAC")]).1.channels
        "#test" = some ch2 ∧
      ch2.members = chEx.members ∪ uidsOf [(true, "002AAAAAC")] ∧
      (chEx.ts < 150 →
        ch2.ts = chEx.ts ∧ ch2.modes = chEx.modes ∧ ch2.ops = chEx.ops) ∧
      ((150 : Int) < chEx.ts →
        ch2.ts = 150 ∧ ch2.modes = nsModesOf [110] ∧
        ch2.ops = oppedUidsOf [(true, "002AAAAAC")]) ∧
      ((150 : Int) = chEx.ts →
        ch2.ts = chEx.ts ∧ ch2.modes = chEx.modes ∪ nsModesOf [110] ∧
        ch2.ops = chEx.ops ∪ oppedUidsOf [(true, "002AAAAAC")]) :=
  sjoin_ts_arbitration cbEx 150 "#test" [110] [(true, "002AAAAAC")] chEx
    (by decide) (by decide)

lemma sjoinUsers_unknown (users : Finset String) (am : Bool) :
    ∀ (l : List (Bool × String)) (ch : Channel),
      (∃ p ∈ l, p.2 ∉ users) → (sjoinUsers users am ch l).2 = false := by
  intro l
  induction l with
  | nil =>
    rintro ch ⟨p, hp, _⟩
    exact absurd hp (List.not_mem_nil p)
  | cons q rest ih =>
    rintro ch ⟨p, hp, hpu⟩
    obtain ⟨hasAt, uid⟩ := q
    by_cases hu : uid ∈ users
    · rw [sjoinUsers, if_pos hu]
      apply ih
      rcases List.mem_cons.mp hp with heq | hm
      · exfalso
        apply hpu
        rw [heq]
        exact hu
      · exact ⟨p, hm, hpu⟩
    · rw [sjoinUsers, if_neg hu]

/-- C10: when the SJOIN user list contains a UID absent from the Users table,
the handler aborts: the message is not propagated, and a channel that this
same SJOIN had just created is removed from the channels table again. -/
theorem sjoin_unknown_uid_aborts (cb : Catbox) (channelTS : Int)
    (chanName : String) (modeChars : List Nat)
    (userList : List (Bool × String))
    (hun : ∃ p ∈ userList, p.2 ∉ cb.users) :
    (sjoinCommand cb channelTS chanName modeChars userList).2 = false ∧
    (mapGet cb.channels chanName = none →
      mapGet (sjoinCommand cb channelTS chanName modeChars userList).1.channels
        chanName = none) := by
  have habort := fun (am : Bool) (chv : Channel) =>
    sjoinUsers_unknown cb.users am userList chv hun
  constructor
  · simp only [sjoinCommand]
    rw [habort]
    simp only [Bool.false_eq_true, if_false, ite_false]
    split_ifs <;> rfl
  · intro hnone
    simp only [sjoinCommand, hnone]
    rw [habort]
    simp only [Bool.false_eq_true, if_false, ite_false, Option.isSome_none]
    exact mapGet_mapDel cb.channels chanName

/-- Closed instance of C10: an SJOIN creating a channel whose single member
is unknown is not propagated and leaves no channel behind. -/
theorem sjoin_unknown_uid_aborts_witness :
    (sjoinCommand ⟨[], {"001AAAAAA"}⟩ 100 "#test" []
        [(false, "002AAAAAC")]).2 = false ∧
    mapGet (sjoinCommand ⟨[], {"001AAAAAA"}⟩ 100 "#test" []
        [(false, "002AAAAAC")]).1.channels "#test" = none := by
  have h := sjoin_unknown_uid_aborts ⟨[], {"001AAAAAA"}⟩ 100 "#test" []
    [(false, "002AAAAAC")] ⟨(false, "002AAAAAC"), by decide, by decide⟩
  exact ⟨h.1, h.2 (by decide)⟩

/- ### Mask matching (part_000 maskToRegex, part_001 matchesMask)

maskToRegex quotes every regexp metacharacter, then turns quoted star into
dot-star and quoted question mark into dot, and compiles the result without
anchors; matchesMask then uses MatchString, which looks for a match anywhere
in the subject.  Bytes: backslash 92, dot 46, plus 43, star 42, question 63,
parens 40 41, pipe 124, brackets 91 93, braces 123 125, caret 94, dollar 36. -/

def isSpecialByte (c : Nat) : Bool :=
  decide (c = 92 ∨ c = 46 ∨ c = 43 ∨ c = 42 ∨ c = 63 ∨ c = 40 ∨ c = 41 ∨
    c = 124 ∨ c = 91 ∨ c = 93 ∨ c = 123 ∨ c = 125 ∨ c = 94 ∨ c = 36)

/-- regexp.QuoteMeta: escape every metacharacter byte with a backslash. -/
def goQuoteMeta : List Nat → List Nat
  | [] => []
  | c :: rest =>
    if isSpecialByte c then 92 :: c :: goQuoteMeta rest
    else c :: goQuoteMeta rest

/-- strings.Replace with a two-byte pattern and count -1: left to right,
non-overlapping, the replacement is not rescanned. -/
def replacePair (a b : Nat) (rep : List Nat) : List Nat → List Nat
  | [] => []
  | [c] => [c]
  | c :: d :: rest =>
    if c = a ∧ d = b then rep ++ replacePair a b rep rest
    else c :: replacePair a b rep (d :: rest)

/-- The regex source string built by maskToRegex. -/
def maskToRegexStr (mask : List Nat) : List Nat :=
  replacePair 92 63 [46] (replacePair 92 42 [46, 42] (goQuoteMeta mask))

inductive RAtom where
  | lit (c : Nat)
  | dot
  | dotStar
deriving DecidableEq

/-- Parser for the fragment of regex syntax that maskToRegex emits: escaped
literals, bare safe literals, dot, and dot-star; anything else (stray
metacharacters, trailing backslash) fails like compilation would. -/
def parseRegex : List Nat → Option (List RAtom)
  | [] => some []
  | 92 :: c :: rest =>
    match parseRegex rest with
    | some ps => some (RAtom.lit c :: ps)
    | none => none
  | 46 :: 42 :: rest =>
    match parseRegex rest with
    | some ps => some (RAtom.dotStar :: ps)
    | none => none
  | 46 :: rest =>
    match parseRegex rest with
    | some ps => some (RAtom.dot :: ps)
    | none => none
  | c :: rest =>
    if isSpecialByte c then none
    else
      match parseRegex rest with
      | some ps => some (RAtom.lit c :: ps)
      | none => none

def tails : List Nat → List (List Nat)
  | [] => [[]]
  | c :: rest => (c :: rest) :: tails rest

/-- Does the atom sequence match some prefix of s?  dot-star may consume any
leading portion, which is the match semantics of the star quantifier. -/
def rmatchPrefix : List RAtom → List Nat → Bool
  | [], _ => true
  | RAtom.lit c :: ps, s =>
    match s with
    | [] => false
    | d :: s2 => decide (c = d) && rmatchPrefix ps s2
  | RAtom.dot :: ps, s =>
    match s with
    | [] => false
    | _ :: s2 => rmatchPrefix ps s2
  | RAtom.dotStar :: ps, s => (tails s).any (fun t => rmatchPrefix ps t)

/-- Go MatchString: the pattern matches somewhere inside s (unanchored). -/
def matchString (ps : List RAtom) (s : List Nat) : Bool :=
  (tails s).any (fun t => rmatchPrefix ps t)

/-- matchesMask from part_001: build both regexes and require a MatchString
hit of the user mask on the username and of the host mask on the hostname. -/
def matchesMask (username hostname userMask hostMask : List Nat) : Bool :=
  match parseRegex (maskToRegexStr userMask) with
  | none => false
  | some ups =>
    if matchString ups username then
      match parseRegex (maskToRegexStr hostMask) with
      | none => false
      | some hps => matchString hps hostname
    else false

/-- Whole-string glob matching as the claim describes it: star matches any
run (possibly empty), question mark exactly one character, and every other
byte only itself. -/
def globMatch : List Nat → List Nat → Bool
  | [], s => decide (s = [])
  | 42 :: p, s => (tails s).any (fun t => globMatch p t)
  | 63 :: p, s =>
    match s with
    | [] => false
    | _ :: s2 => globMatch p s2
  | c :: p, s =>
    match s with
    | [] => false
    | d :: s2 => decide (c = d) && globMatch p s2

/-- C3: maskToRegex emits no anchors and matchesMask uses the unanchored
MatchString, so the mask b matches the username abc although as a whole-
string glob it does not; this contradicts the documented behaviour that a
wildcard-free mask must equal the user field. -/
theorem matchesMask_unanchored_bug :
    matchesMask [97, 98, 99] [104, 111, 115, 116] [98] [104, 111, 115, 116] =
      true ∧
    globMatch [98] [97, 98, 99] = false := by
  decide
